import Mathlib

/-!
Verification development for the resource-acquisition engine of
`tweetpdf.py` (ExportTweetsToPDF-Standard).

The Python source is shallowly embedded below.  Machine-level/stdlib
behaviour is represented as follows:

* an HTTP attempt (`client.get`) is an `Attempt`: either a response with a
  status code and a body length, or a transport-level error (the exception
  raised by the client); the body is represented by its length, the only
  property of it the engine inspects (`r.content` truthiness and
  `len(r.content)`);
* a URL is represented by the result of `urllib.parse.urlparse` on it: a
  `parseOk` flag (`urlparse`/`hostname` can raise on malformed input, caught
  in `_allowed_host`), the optional `hostname`, and the `path`;
* the filesystem is an association list from paths to file sizes;
* `Path.as_uri()` is modelled by prefixing `file://`;
* the `asyncio.gather` of per-task coroutines is modelled by running the
  tasks in sequence: each task touches only its own destination path and its
  own owner record, and the semaphore only bounds parallelism, so the
  per-task and aggregate results are those of the sequential run.
-/

namespace TweetPdf

/-! ## Characters, decimal formatting (`f"{i:02d}"`), Python `str.lower` -/

/-- The character of a decimal digit, `chr(48 + d)`. -/
def digitChar (d : Nat) : Char := Char.ofNat (48 + d)

/-- Big-endian decimal digit characters of a positive number. -/
def bigDigits (i : Nat) : List Char := ((Nat.digits 10 i).reverse).map digitChar

/-- Embedding of Python `f"{i:02d}"`: decimal, zero-padded to width 2. -/
def pad2 (i : Nat) : List Char := if i < 10 then ['0', digitChar i] else bigDigits i

/-- Decode a list of decimal digit characters back to a number. -/
def decDigits (l : List Char) : Nat := l.foldl (fun a c => 10 * a + (c.toNat - 48)) 0

/-- ASCII alphanumeric test, the character class `[A-Za-z0-9]`. -/
def isAlnumAscii (c : Char) : Bool :=
  ('A' ≤ c && c ≤ 'Z') || ('a' ≤ c && c ≤ 'z') || ('0' ≤ c && c ≤ '9')

/-- Lower-cased characters of a string; model of Python `str.lower()`
(the strings the program lowercases are ASCII host names and ASCII
alphanumeric extension groups, where `Char.toLower` agrees with Python). -/
def lowerChars (s : String) : List Char := s.data.map Char.toLower

/-! ## `_safe_ext_from_url` (tweetpdf.py lines 121-124)

`re.search(r"\.([A-Za-z0-9]{2,5})$", path)` matches exactly when the last
`.` of `path` is followed by 2 to 5 ASCII alphanumeric characters running to
the end of the string (an earlier `.` cannot start a match because the group
cannot contain the later `.`), so the regex is embedded as a last-dot split. -/

/-- The characters after the last `'.'` of the list, if any dot occurs. -/
def afterLastDot : List Char → Option (List Char)
  | [] => none
  | c :: rest =>
    match afterLastDot rest with
    | some t => some t
    | none => if c == '.' then some rest else none

/-- Embedding of `_safe_ext_from_url` on the already-parsed URL path. -/
def safeExtChars (path : List Char) : List Char :=
  match afterLastDot path with
  | some t =>
    if 2 ≤ t.length ∧ t.length ≤ 5 ∧ t.all isAlnumAscii then '.' :: t.map Char.toLower
    else ['.', 'b', 'i', 'n']
  | none => ['.', 'b', 'i', 'n']

/-! ## `_allowed_host` (tweetpdf.py lines 127-132) -/

/-- A remote reference, represented by its `urlparse` image (see header). -/
structure Url where
  parseOk : Bool
  hostname : Option String
  path : String
deriving DecidableEq, Repr

/-- `prefOf p s`: is `p` a leading segment of `s`? -/
def prefOf : List Char → List Char → Bool
  | [], _ => true
  | _ :: _, [] => false
  | a :: as, b :: bs => a == b && prefOf as bs

/-- `sufOf p s`: is `p` a trailing segment of `s`?  Model of `str.endswith`. -/
def sufOf (p s : List Char) : Bool := prefOf p.reverse s.reverse

/-- Embedding of `_allowed_host`: `host = (urlparse(url).hostname or "").lower()`
(any parse exception gives `False`), then
`any(host == h.lower() or host.endswith("." + h.lower()) for h in allow_hosts)`. -/
def allowedHost (u : Url) (hosts : List String) : Bool :=
  if u.parseOk then
    let host := lowerChars (u.hostname.getD "")
    hosts.any fun h => host == lowerChars h || sufOf ('.' :: lowerChars h) host
  else false

/-! ## Task construction (`_download_media`, tweetpdf.py lines 224-230) -/

/-- One row of the parsed CSV, restricted to the fields the media engine
reads and writes: the sanitized `tweet_id`, the media reference list, and
the `media_files` accumulator the engine appends to. -/
structure Row where
  tweet_id : String
  media_urls : List Url
  media_files : List String
deriving DecidableEq, Repr

/-- The file-name part `f"{tweet_id}_{i:02d}{ext}"` of a destination. -/
def destChars (tid : List Char) (i : Nat) (ext : List Char) : List Char :=
  tid ++ '_' :: (pad2 i ++ ext)

/-- Embedding of `media_cache_dir / f"{t.tweet_id}_{i:02d}{_safe_ext_from_url(url)}"`. -/
def destPath (dir tid : String) (i : Nat) (u : Url) : String :=
  ⟨dir.data ++ '/' :: destChars tid.data i (safeExtChars u.path.data)⟩

/-- An acquisition task: owner row (by position), its sanitized id, the
media index within the row, the reference, and the destination path. -/
structure Task where
  rowIdx : Nat
  tid : String
  mediaIdx : Nat
  url : Url
  dest : String
deriving DecidableEq, Repr

/-- Model of Python `enumerate` starting at `n`. -/
def pyEnum : Nat → List α → List (Nat × α)
  | _, [] => []
  | n, x :: xs => (n, x) :: pyEnum (n + 1) xs

/-- Tasks contributed by one row: `for i, url in enumerate(t.media_urls)`,
keeping only references admitted by `_allowed_host`. -/
def buildTasksRow (tid : String) (rowIdx : Nat) (urls : List Url) (hosts : List String)
    (dir : String) : List Task :=
  (pyEnum 0 urls).filterMap fun p =>
    if allowedHost p.2 hosts then some ⟨rowIdx, tid, p.1, p.2, destPath dir tid p.1 p.2⟩
    else none

/-- The task list of a run: `for t in rows: for i, url in enumerate(...)`. -/
def buildTasks (rows : List Row) (hosts : List String) (dir : String) : List Task :=
  (pyEnum 0 rows).flatMap fun p => buildTasksRow p.2.tweet_id p.1 p.2.media_urls hosts dir

/-! ## One fetch with retries (`fetch_one`, tweetpdf.py lines 247-273) -/

/-- The result of one `client.get`: a status/body-length pair, or a
transport-level exception. -/
inductive Attempt where
  | response (status : Nat) (clen : Nat)
  | transportError
deriving DecidableEq, Repr

/-- `r.status_code in (429, 500, 502, 503, 504)`. -/
def transientStatus (s : Nat) : Bool :=
  s == 429 || s == 500 || s == 502 || s == 503 || s == 504

/-- The terminal state of one task. -/
inductive Outcome where
  | cacheHit
  | written (n : Nat)
  | oversize (clen : Nat)
  | permanent (status : Nat) (clen : Nat)
  | exhausted
deriving DecidableEq, Repr

/-- Everything observable about one task's processing: its outcome, the
number of network requests issued, the backoff sleeps performed (in order),
the bytes written to the destination (if any), and whether a URI was
appended to the owner's `media_files`. -/
structure FetchResult where
  outcome : Outcome
  calls : Nat
  delays : List Nat
  written : Option Nat
  attached : Bool
deriving DecidableEq, Repr

/-- How one loop iteration of `fetch_one` exits: a `return` from the
function, or an exception reaching the `except` clause (a transport error
from `client.get`, or the `raise RuntimeError` on a transient status). -/
inductive StepExit where
  | done (o : Outcome) (wrote : Option Nat) (attach : Bool)
  | raised
deriving DecidableEq, Repr

/-- The body of the `try` block of one attempt (tweetpdf.py lines 255-266). -/
def attemptStep (maxBytes : Nat) : Attempt → StepExit
  | .transportError => .raised
  | .response status clen =>
    if status = 200 ∧ 0 < clen then
      if maxBytes < clen then .done (.oversize clen) none false
      else .done (.written clen) (some clen) true
    else if transientStatus status then .raised
    else .done (.permanent status clen) none false

/-- The `for attempt in range(4)` retry loop, processed over the list of the
(up to four) attempt results the network would return; the code's
`if attempt == 3: return` is the singleton case, since the loop is always
entered with exactly four pending attempts.  `backoff` starts at 1 and the
sleep happens before doubling, exactly as in the source. -/
def fetchLoop (maxBytes : Nat) : List Attempt → Nat → FetchResult
  | [], _ => ⟨.exhausted, 0, [], none, false⟩
  | [a], _ =>
    match attemptStep maxBytes a with
    | .done o w att => ⟨o, 1, [], w, att⟩
    | .raised => ⟨.exhausted, 1, [], none, false⟩
  | a :: r1 :: rs, backoff =>
    match attemptStep maxBytes a with
    | .done o w att => ⟨o, 1, [], w, att⟩
    | .raised =>
      let r := fetchLoop maxBytes (r1 :: rs) (2 * backoff)
      ⟨r.outcome, r.calls + 1, backoff :: r.delays, r.written, r.attached⟩

/-- Embedding of `fetch_one` for one task: the cache probe
`out.exists() and out.stat().st_size > 0` short-circuits; otherwise the
retry loop runs over the four attempts the environment `env` would return. -/
def fetchOne (destExists : Bool) (destSize : Nat) (maxBytes : Nat) (env : Nat → Attempt) :
    FetchResult :=
  if destExists && decide (0 < destSize) then ⟨.cacheHit, 0, [], none, true⟩
  else fetchLoop maxBytes ((List.range 4).map env) 1

/-! ## The orchestrator (`_download_media`, tweetpdf.py lines 214-280) -/

/-- The shared state a run mutates: the caller's rows (whose `media_files`
lists the workers append to) and the destination filesystem. -/
structure MediaState where
  rows : List Row
  fs : List (String × Nat)
deriving DecidableEq, Repr

/-- Size of the file at `p`, if one exists. -/
def fsSize (fs : List (String × Nat)) (p : String) : Option Nat :=
  (fs.find? fun e => e.1 == p).map fun e => e.2

/-- `out.write_bytes(content)`: (over)write the file at `p` with `n` bytes. -/
def writeFs (fs : List (String × Nat)) (p : String) (n : Nat) : List (String × Nat) :=
  (p, n) :: fs.filter fun e => e.1 != p

/-- `Path.as_uri()` of a destination path (see header). -/
def fileUri (p : String) : String := "file://" ++ p

/-- `t.media_files.append(u)` on the row at position `idx`. -/
def appendMediaFile : List Row → Nat → String → List Row
  | [], _, _ => []
  | r :: rs, 0, u => { r with media_files := r.media_files ++ [u] } :: rs
  | r :: rs, n + 1, u => r :: appendMediaFile rs n u

/-- Run `fetch_one` for one task against the current state: probe the
destination, run the retry loop, then perform its effects (the file write
on success, the `media_files.append` on success or cache hit). -/
def applyTask (maxBytes : Nat) (env : Nat → Attempt) (st : MediaState) (t : Task) :
    MediaState × FetchResult :=
  let sz := fsSize st.fs t.dest
  let r := fetchOne sz.isSome (sz.getD 0) maxBytes env
  let fs2 := match r.written with
    | some n => writeFs st.fs t.dest n
    | none => st.fs
  let rows2 :=
    if r.attached then appendMediaFile st.rows t.rowIdx (fileUri t.dest) else st.rows
  (⟨rows2, fs2⟩, r)

/-- Process every task (see header: the `asyncio.gather` is modelled by the
sequential run), also returning the per-task results in task order. -/
def runTasksTrace (maxBytes : Nat) (envs : Nat → Nat → Attempt) (st : MediaState) :
    List Task → Nat → MediaState × List FetchResult
  | [], _ => (st, [])
  | t :: rest, k =>
    let p := applyTask maxBytes (envs k) st t
    let q := runTasksTrace maxBytes envs p.1 rest (k + 1)
    (q.1, p.2 :: q.2)

/-- The fatal (batch-aborting) failures of the media phase: `mkdir` of the
destination directory failing, and `main`'s `--concurrency` check. -/
inductive MediaError where
  | mkdirFailed
  | badConcurrency
deriving DecidableEq, Repr

/-- Embedding of `_download_media`: create the cache directory (its failure
is the only exception this function lets escape), build the task list, run
every task.  The Python function returns `None`; its observable output is
the mutated state, which the embedding returns. -/
def downloadMedia (mkdirOk : Bool) (dir : String) (rows : List Row) (hosts : List String)
    (maxBytes : Nat) (fs0 : List (String × Nat)) (envs : Nat → Nat → Attempt) :
    Except MediaError MediaState :=
  if mkdirOk then
    .ok (runTasksTrace maxBytes envs ⟨rows, fs0⟩ (buildTasks rows hosts dir) 0).1
  else .error .mkdirFailed

/-- The media phase as `main` invokes it (tweetpdf.py lines 403-404 and
422-427): `--concurrency` is validated before any work starts. -/
def mainMediaPhase (concurrency : Int) (mkdirOk : Bool) (dir : String) (rows : List Row)
    (hosts : List String) (maxBytes : Nat) (fs0 : List (String × Nat))
    (envs : Nat → Nat → Attempt) : Except MediaError MediaState :=
  if concurrency < 1 then .error .badConcurrency
  else downloadMedia mkdirOk dir rows hosts maxBytes fs0 envs

/-- Modelled from the spec: the `skipped` count of the AggregateReport the
spec says the orchestrator returns — references rejected by the allowlist
plus oversize payloads are reported as `Skipped`. -/
def specSkipped (dir : String) (rows : List Row) (hosts : List String) (maxBytes : Nat)
    (fs0 : List (String × Nat)) (envs : Nat → Nat → Attempt) : Nat :=
  rows.foldl (fun a r => a + r.media_urls.countP fun u => !allowedHost u hosts) 0 +
    ((runTasksTrace maxBytes envs ⟨rows, fs0⟩ (buildTasks rows hosts dir) 0).2.countP
      fun r => match r.outcome with | .oversize _ => true | _ => false)

/-- Modelled from the claim C2 / spec 4.1 words: the reference is allowed
iff it parses to a host that equals one of the allowed hosts
case-insensitively or is a subdomain of one (suffix match on
`"." + allowedHost`); a reference with no parsable host is never allowed. -/
def specAllowedRef (u : Url) (hosts : List String) : Bool :=
  match u.parseOk, u.hostname with
  | true, some host =>
    hosts.any fun h =>
      lowerChars host == lowerChars h || sufOf ('.' :: lowerChars h) (lowerChars host)
  | _, _ => false

/-! ## The font bootstrap (`_ensure_fonts`, tweetpdf.py lines 283-326) -/

/-- A required static resource (tweetpdf.py lines 40-61). -/
structure FontSpec where
  family : String
  filename : String
  format_hint : String
  url : String
deriving DecidableEq, Repr

/-- A `@font-face` record returned on success. -/
structure FontFace where
  family : String
  src : String
  format : String
deriving DecidableEq, Repr

/-- Did this attempt satisfy `resp.status_code == 200 and resp.content`? -/
def fontSuccess : Attempt → Bool
  | .response s c => s == 200 && decide (0 < c)
  | .transportError => false

/-- One iteration of the font retry loop: `some ok` when the loop `break`s
with that value of `ok`, `none` when the exception path retries. -/
def fontStep : Attempt → Option Bool
  | .transportError => none
  | .response s c =>
    if s = 200 ∧ 0 < c then some true
    else if transientStatus s then none
    else some false

/-- The `for attempt in range(4)` loop of `_ensure_fonts` for one font,
returning the final value of `ok`; as in `fetchLoop`, `attempt == 3` is the
singleton case. -/
def fontLoop : List Attempt → Bool
  | [] => false
  | [a] =>
    match fontStep a with
    | some b => b
    | none => false
  | a :: r1 :: rs =>
    match fontStep a with
    | some b => b
    | none => fontLoop (r1 :: rs)

/-- The download loop over the missing fonts: the first font whose loop
ends with `ok == False` raises `SystemExit` (modelled as `.error`). -/
def downloadMissing (env : String → Nat → Attempt) : List FontSpec → Except String Unit
  | [] => .ok ()
  | s :: rest =>
    if fontLoop ((List.range 4).map (env s.filename)) then downloadMissing env rest
    else .error ("Failed to download font: " ++ s.filename)

/-- Embedding of `_ensure_fonts`: fonts already present are not fetched;
every missing font is downloaded with retries; any font still missing after
its loop aborts the whole run; on success the `@font-face` list for all
specs is returned. -/
def ensureFonts (fontDir : String) (specs : List FontSpec) (present : String → Bool)
    (env : String → Nat → Attempt) : Except String (List FontFace) :=
  (downloadMissing env (specs.filter fun s => !present s.filename)).map fun _ =>
    specs.map fun s => ⟨s.family, fileUri (fontDir ++ "/" ++ s.filename), s.format_hint⟩

/-! ## `_parse_media_urls` (tweetpdf.py lines 104-113) -/

/-- The class `[\r\n]+` splits on. -/
def isSplitNL (c : Char) : Bool := c == '\r' || c == '\n'

/-- Python `\s` (ASCII part; the cells at issue are ASCII URLs). -/
def isPyWS (c : Char) : Bool :=
  c == ' ' || c == '\t' || c == '\n' || c == '\r' || c == '\x0b' || c == '\x0c'

/-- Embedding of `re.split(r"[\r\n]+|[;,]\s*", s)`: scanning left to right,
a run of CR/LF is one separator, and a `;` or `,` together with the
whitespace run after it is one separator.  The fuel argument only makes the
recursion structural: every call consumes at least one character per unit of
fuel (`dropWhile` never grows a list), so with `fuel = cs.length` — as
`splitParts` passes — the fuel-0 branch is only ever reached on `[]`, where
it agrees with the `[]` branch. -/
def splitFuel : Nat → List Char → List Char → List (List Char)
  | 0, _, acc => [acc.reverse]
  | _ + 1, [], acc => [acc.reverse]
  | fuel + 1, c :: rest, acc =>
    if isSplitNL c then acc.reverse :: splitFuel fuel (rest.dropWhile isSplitNL) []
    else if c == ';' || c == ',' then acc.reverse :: splitFuel fuel (rest.dropWhile isPyWS) []
    else splitFuel fuel rest (c :: acc)

/-- `re.split(r"[\r\n]+|[;,]\s*", s)` on a character list. -/
def splitParts (cs : List Char) : List (List Char) := splitFuel cs.length cs []

/-- Python `str.strip()` (ASCII whitespace; see `isPyWS`). -/
def pyStripChars (cs : List Char) : List Char :=
  ((cs.dropWhile isPyWS).reverse.dropWhile isPyWS).reverse

/-- `p.startswith("http://") or p.startswith("https://")`. -/
def startsHttp (p : List Char) : Bool :=
  prefOf "http://".data p || prefOf "https://".data p

/-- Embedding of `_parse_media_urls`: an empty (falsy) cell gives `[]`;
otherwise split the stripped cell, strip every part, and keep exactly the
parts that start with `http://` or `https://`. -/
def parseMediaUrls (cell : String) : List String :=
  if cell.data.isEmpty then []
  else
    (splitParts (pyStripChars cell.data)).filterMap fun part =>
      let p := pyStripChars part
      if startsHttp p then some ⟨p⟩ else none

/-! ## Further definitions used by the statements below -/

/-- Does an attempt take the `except` path of the retry loop (a transport
error, or a status in the transient set — transient statuses are never 200,
so such a response never enters the success branch)? -/
def attemptRetryable : Attempt → Bool
  | .transportError => true
  | .response s _ => transientStatus s

/-- The backoff sleeps of `n` consecutive retries starting from delay `b`:
`b, 2b, 4b, ...`. -/
def geomDelays (b : Nat) : Nat → List Nat
  | 0 => []
  | n + 1 => b :: geomDelays (2 * b) n

/-- Shape of the extension `_safe_ext_from_url` produces: a dot followed by
characters that are neither dots nor underscores. -/
def extOk (e : List Char) : Prop :=
  ∃ b, e = '.' :: b ∧ ∀ c ∈ b, c ≠ '.' ∧ c ≠ '_'

/-! ## Lemmas: decimal formatting and destination-name structure -/

theorem digit_toNat : ∀ d, d < 10 → (digitChar d).toNat = 48 + d := by decide

theorem decDigits_append (l : List Char) (c : Char) :
    decDigits (l ++ [c]) = 10 * decDigits l + (c.toNat - 48) := by
  simp [decDigits, List.foldl_append]

theorem decDigits_rev_map (l : List Nat) (h : ∀ d ∈ l, d < 10) :
    decDigits ((l.reverse).map digitChar) = Nat.ofDigits 10 l := by
  induction l with
  | nil => simp [decDigits, Nat.ofDigits]
  | cons x xs ih =>
    have hx : x < 10 := h x (by simp)
    rw [List.reverse_cons, List.map_append, List.map_singleton, decDigits_append,
      ih fun d hd => h d (List.mem_cons_of_mem _ hd), Nat.ofDigits_cons, digit_toNat x hx]
    omega

theorem decDigits_pad2 (i : Nat) : decDigits (pad2 i) = i := by
  unfold pad2
  split
  · rw [show ['0', digitChar i] = ['0'] ++ [digitChar i] from rfl, decDigits_append,
      digit_toNat i (by omega)]
    have h0 : decDigits ['0'] = 0 := by decide
    rw [h0]; omega
  · unfold bigDigits
    rw [decDigits_rev_map _ fun d hd => Nat.digits_lt_base (by norm_num) hd,
      Nat.ofDigits_digits]

theorem pad2_inj {i j : Nat} (h : pad2 i = pad2 j) : i = j := by
  rw [← decDigits_pad2 i, ← decDigits_pad2 j, h]

theorem pad2_digit (i : Nat) : ∀ c ∈ pad2 i, 48 ≤ c.toNat ∧ c.toNat ≤ 57 := by
  intro c hc
  unfold pad2 at hc
  split at hc
  · rcases List.mem_cons.mp hc with rfl | hc
    · decide
    · rcases List.mem_cons.mp hc with rfl | hc
      · rw [digit_toNat i (by omega)]; omega
      · simp at hc
  · unfold bigDigits at hc
    obtain ⟨d, hd, rfl⟩ := List.mem_map.mp hc
    have : d < 10 := Nat.digits_lt_base (by norm_num) (List.mem_reverse.mp hd)
    rw [digit_toNat d this]; omega

theorem pad2_ne (i : Nat) : ∀ c ∈ pad2 i, c ≠ '.' ∧ c ≠ '_' := by
  intro c hc
  have h := pad2_digit i c hc
  constructor <;> intro he <;> subst he <;> exact absurd h (by decide)

theorem toLower_safe (c : Char) (h : isAlnumAscii c = true) :
    Char.toLower c ≠ '.' ∧ Char.toLower c ≠ '_' := by
  have hdef : Char.toLower c =
      if c.toNat ≥ 65 ∧ c.toNat ≤ 90 then Char.ofNat (c.toNat + 32) else c := rfl
  rw [hdef]
  by_cases hg : c.toNat ≥ 65 ∧ c.toNat ≤ 90
  · rw [if_pos hg]
    have hk : ∀ n, n < 91 → 65 ≤ n → (Char.ofNat (n + 32)).toNat = n + 32 := by decide
    have hub : c.toNat ≤ 90 := hg.2
    have ht := hk c.toNat (by omega) hg.1
    have hd : ('.' : Char).toNat = 46 := rfl
    have hs : ('_' : Char).toNat = 95 := rfl
    constructor <;> intro he <;> have hN := congrArg Char.toNat he <;> rw [ht] at hN
    · rw [hd] at hN; omega
    · rw [hs] at hN; omega
  · rw [if_neg hg]
    constructor <;> intro he <;> rw [he] at h <;> exact absurd h (by decide)

theorem append_sep_eq {s : Char} :
    ∀ (a b u v : List Char), s ∉ u → s ∉ v → a ++ s :: u = b ++ s :: v → a = b ∧ u = v := by
  intro a
  induction a with
  | nil =>
    intro b u v hu hv h
    cases b with
    | nil =>
      simp only [List.nil_append, List.cons.injEq] at h
      exact ⟨rfl, h.2⟩
    | cons y ys =>
      simp only [List.nil_append, List.cons_append, List.cons.injEq] at h
      exact absurd (h.2 ▸ List.mem_append_right ys (List.mem_cons_self s v)) hu
  | cons x xs ih =>
    intro b u v hu hv h
    cases b with
    | nil =>
      simp only [List.nil_append, List.cons_append, List.cons.injEq] at h
      exact absurd (h.2 ▸ List.mem_append_right xs (List.mem_cons_self s u)) hv
    | cons y ys =>
      simp only [List.cons_append, List.cons.injEq] at h
      obtain ⟨rfl, h2⟩ := h
      obtain ⟨h3, h4⟩ := ih ys u v hu hv h2
      exact ⟨by rw [h3], h4⟩

theorem safeExt_extOk (p : List Char) : extOk (safeExtChars p) := by
  unfold safeExtChars
  cases afterLastDot p with
  | none => exact ⟨['b', 'i', 'n'], rfl, by decide⟩
  | some t =>
    show extOk (if 2 ≤ t.length ∧ t.length ≤ 5 ∧ t.all isAlnumAscii = true
      then '.' :: List.map Char.toLower t else ['.', 'b', 'i', 'n'])
    by_cases hg : 2 ≤ t.length ∧ t.length ≤ 5 ∧ t.all isAlnumAscii = true
    · rw [if_pos hg]
      refine ⟨t.map Char.toLower, rfl, ?_⟩
      intro c hc
      obtain ⟨c0, hc0, rfl⟩ := List.mem_map.mp hc
      exact toLower_safe c0 (List.all_eq_true.mp hg.2.2 c0 hc0)
    · rw [if_neg hg]
      exact ⟨['b', 'i', 'n'], rfl, by decide⟩

theorem destChars_inj {t1 t2 : List Char} {i1 i2 : Nat} {e1 e2 : List Char}
    (h1 : extOk e1) (h2 : extOk e2) (h : destChars t1 i1 e1 = destChars t2 i2 e2) :
    t1 = t2 ∧ i1 = i2 ∧ e1 = e2 := by
  obtain ⟨b1, rfl, hb1⟩ := h1
  obtain ⟨b2, rfl, hb2⟩ := h2
  unfold destChars at h
  have hu : ∀ (i : Nat) (b : List Char), (∀ c ∈ b, c ≠ '.' ∧ c ≠ '_') →
      '_' ∉ pad2 i ++ '.' :: b := by
    intro i b hb hm
    rcases List.mem_append.mp hm with hm | hm
    · exact (pad2_ne i _ hm).2 rfl
    · rcases List.mem_cons.mp hm with hm | hm
      · exact absurd hm (by decide)
      · exact (hb _ hm).2 rfl
  obtain ⟨hT, hrest⟩ := append_sep_eq _ _ _ _ (hu i1 b1 hb1) (hu i2 b2 hb2) h
  obtain ⟨hP, hB⟩ := append_sep_eq _ _ _ _ (fun hm => (hb1 _ hm).1 rfl)
    (fun hm => (hb2 _ hm).1 rfl) hrest
  exact ⟨hT, pad2_inj hP, by rw [hB]⟩

theorem destPath_inj {dir t1 t2 : String} {i1 i2 : Nat} {u1 u2 : Url}
    (h : destPath dir t1 i1 u1 = destPath dir t2 i2 u2) : t1 = t2 ∧ i1 = i2 := by
  unfold destPath at h
  have hdata := congrArg String.data h
  have h2 := List.append_cancel_left hdata
  simp only [List.cons.injEq, true_and] at h2
  obtain ⟨hT, hI, _⟩ :=
    destChars_inj (safeExt_extOk u1.path.data) (safeExt_extOk u2.path.data) h2
  refine ⟨?_, hI⟩
  calc t1 = ⟨t1.data⟩ := rfl
    _ = ⟨t2.data⟩ := by rw [hT]
    _ = t2 := rfl

/-! ## Lemmas: task construction -/

theorem pyEnum_mem : ∀ {l : List α} {n : Nat} {p : Nat × α}, p ∈ pyEnum n l →
    n ≤ p.1 ∧ l.get? (p.1 - n) = some p.2 := by
  intro l
  induction l with
  | nil => intro n p h; simp [pyEnum] at h
  | cons x xs ih =>
    intro n p h
    rw [pyEnum] at h
    rcases List.mem_cons.mp h with rfl | h
    · simp
    · obtain ⟨h1, h2⟩ := ih h
      refine ⟨by omega, ?_⟩
      have he : p.1 - n = (p.1 - (n + 1)) + 1 := by omega
      rw [he, List.get?_cons_succ]
      exact h2

theorem mem_buildTasks {rows : List Row} {hosts : List String} {dir : String} {t : Task}
    (h : t ∈ buildTasks rows hosts dir) :
    ∃ r, rows.get? t.rowIdx = some r ∧ t.tid = r.tweet_id ∧
      allowedHost t.url hosts = true ∧
      r.media_urls.get? t.mediaIdx = some t.url ∧
      t.dest = destPath dir r.tweet_id t.mediaIdx t.url := by
  unfold buildTasks at h
  obtain ⟨p, hp, ht⟩ := List.mem_flatMap.mp h
  obtain ⟨_, h2⟩ := pyEnum_mem hp
  unfold buildTasksRow at ht
  obtain ⟨q, hq, he⟩ := List.mem_filterMap.mp ht
  obtain ⟨_, h4⟩ := pyEnum_mem hq
  by_cases hall : allowedHost q.2 hosts = true
  · rw [if_pos hall] at he
    obtain rfl := Option.some.inj he
    simp only [Nat.sub_zero] at h2 h4
    exact ⟨p.2, h2, rfl, hall, h4, rfl⟩
  · rw [if_neg hall] at he
    exact absurd he (by simp)

/-! ## Lemmas: the retry loop -/

theorem attemptStep_response (maxB s c : Nat) :
    attemptStep maxB (.response s c) =
      if s = 200 ∧ 0 < c then
        if maxB < c then .done (.oversize c) none false
        else .done (.written c) (some c) true
      else if transientStatus s then .raised
      else .done (.permanent s c) none false := rfl

theorem attemptStep_cases (maxB : Nat) (a : Attempt) :
    attemptStep maxB a = .raised ∨
    (∃ c, attemptStep maxB a = .done (.written c) (some c) true) ∨
    (∃ c, attemptStep maxB a = .done (.oversize c) none false) ∨
    (∃ s c, attemptStep maxB a = .done (.permanent s c) none false) := by
  cases a with
  | transportError => exact Or.inl rfl
  | response s c =>
    rw [attemptStep_response]
    by_cases h1 : s = 200 ∧ 0 < c
    · rw [if_pos h1]
      by_cases h2 : maxB < c
      · rw [if_pos h2]; exact Or.inr (Or.inr (Or.inl ⟨c, rfl⟩))
      · rw [if_neg h2]; exact Or.inr (Or.inl ⟨c, rfl⟩)
    · rw [if_neg h1]
      by_cases h3 : transientStatus s = true
      · simp only [h3, if_true]; exact Or.inl trivial
      · simp only [Bool.not_eq_true] at h3
        simp only [h3, Bool.false_eq_true, if_false]
        exact Or.inr (Or.inr (Or.inr ⟨s, c, rfl⟩))

theorem retry_step (maxB : Nat) {a : Attempt} (h : attemptRetryable a = true) :
    attemptStep maxB a = .raised := by
  cases a with
  | transportError => rfl
  | response s c =>
    unfold attemptRetryable at h
    have hs : (((s = 429 ∨ s = 500) ∨ s = 502) ∨ s = 503) ∨ s = 504 := by
      simpa [transientStatus] using h
    rcases hs with (((rfl | rfl) | rfl) | rfl) | rfl <;>
      simp [attemptStep_response, transientStatus]

theorem fetchLoop_one (maxB b : Nat) (a : Attempt) :
    fetchLoop maxB [a] b =
      match attemptStep maxB a with
      | .done o w att => ⟨o, 1, [], w, att⟩
      | .raised => ⟨.exhausted, 1, [], none, false⟩ := rfl

theorem fetchLoop_two (maxB b : Nat) (a r1 : Attempt) (rs : List Attempt) :
    fetchLoop maxB (a :: r1 :: rs) b =
      match attemptStep maxB a with
      | .done o w att => ⟨o, 1, [], w, att⟩
      | .raised =>
        let r := fetchLoop maxB (r1 :: rs) (2 * b)
        ⟨r.outcome, r.calls + 1, b :: r.delays, r.written, r.attached⟩ := rfl

theorem fetchLoop_done {maxB b : Nat} {a : Attempt} {rest : List Attempt}
    {o : Outcome} {w : Option Nat} {att : Bool} (h : attemptStep maxB a = .done o w att) :
    fetchLoop maxB (a :: rest) b = ⟨o, 1, [], w, att⟩ := by
  cases rest with
  | nil => rw [fetchLoop_one, h]
  | cons r1 rs => rw [fetchLoop_two, h]

theorem fetchLoop_raised_nil {maxB b : Nat} {a : Attempt}
    (h : attemptStep maxB a = .raised) :
    fetchLoop maxB [a] b = ⟨.exhausted, 1, [], none, false⟩ := by
  rw [fetchLoop_one, h]

theorem fetchLoop_raised_cons {maxB b : Nat} {a : Attempt} {rest : List Attempt}
    (h : attemptStep maxB a = .raised) (hne : rest ≠ []) :
    fetchLoop maxB (a :: rest) b =
      ⟨(fetchLoop maxB rest (2 * b)).outcome, (fetchLoop maxB rest (2 * b)).calls + 1,
        b :: (fetchLoop maxB rest (2 * b)).delays, (fetchLoop maxB rest (2 * b)).written,
        (fetchLoop maxB rest (2 * b)).attached⟩ := by
  cases rest with
  | nil => exact absurd rfl hne
  | cons r1 rs => rw [fetchLoop_two, h]

theorem fetchLoop_calls_le (maxB : Nat) :
    ∀ (l : List Attempt) (b : Nat), (fetchLoop maxB l b).calls ≤ l.length := by
  intro l
  induction l with
  | nil => intro b; simp [fetchLoop]
  | cons a rest ih =>
    intro b
    rcases attemptStep_cases maxB a with h | ⟨c, h⟩ | ⟨c, h⟩ | ⟨s, c, h⟩
    · cases rest with
      | nil => rw [fetchLoop_raised_nil h]; simp
      | cons r1 rs =>
        rw [fetchLoop_raised_cons h (by simp)]
        have := ih (2 * b)
        simp only [List.length_cons] at this ⊢
        omega
    all_goals rw [fetchLoop_done h]; simp
  -- the three `done` exits each issue exactly one request

theorem fetchLoop_calls_pos (maxB : Nat) (a : Attempt) (rest : List Attempt) (b : Nat) :
    1 ≤ (fetchLoop maxB (a :: rest) b).calls := by
  rcases attemptStep_cases maxB a with h | ⟨c, h⟩ | ⟨c, h⟩ | ⟨s, c, h⟩
  · cases rest with
    | nil => rw [fetchLoop_raised_nil h]
    | cons r1 rs => rw [fetchLoop_raised_cons h (by simp)]; simp
  all_goals rw [fetchLoop_done h]

theorem fetchLoop_attached_iff (maxB : Nat) :
    ∀ (l : List Attempt) (b : Nat),
      ((fetchLoop maxB l b).attached = true ↔
        ∃ n, (fetchLoop maxB l b).outcome = .written n) := by
  intro l
  induction l with
  | nil => intro b; simp [fetchLoop]
  | cons a rest ih =>
    intro b
    rcases attemptStep_cases maxB a with h | ⟨c, h⟩ | ⟨c, h⟩ | ⟨s, c, h⟩
    · cases rest with
      | nil => rw [fetchLoop_raised_nil h]; simp
      | cons r1 rs => rw [fetchLoop_raised_cons h (by simp)]; exact ih (2 * b)
    · rw [fetchLoop_done h]; simp
    · rw [fetchLoop_done h]; simp
    · rw [fetchLoop_done h]; simp

theorem fetchLoop_all_retry (maxB : Nat) (env : Nat → Attempt)
    (h : ∀ k, k < 4 → attemptRetryable (env k) = true) :
    fetchLoop maxB ((List.range 4).map env) 1 = ⟨.exhausted, 4, [1, 2, 4], none, false⟩ := by
  have e0 := retry_step maxB (h 0 (by omega))
  have e1 := retry_step maxB (h 1 (by omega))
  have e2 := retry_step maxB (h 2 (by omega))
  have e3 := retry_step maxB (h 3 (by omega))
  have hl : (List.range 4).map env = [env 0, env 1, env 2, env 3] := rfl
  rw [hl, fetchLoop_raised_cons e0 (by simp), fetchLoop_raised_cons e1 (by simp),
    fetchLoop_raised_cons e2 (by simp), fetchLoop_raised_nil e3]

theorem fetchLoop_oversize (maxB : Nat) :
    ∀ (pre rest : List Attempt) (c b : Nat), (∀ a ∈ pre, attemptRetryable a = true) →
      maxB < c →
      fetchLoop maxB (pre ++ .response 200 c :: rest) b =
        ⟨.oversize c, pre.length + 1, geomDelays b pre.length, none, false⟩ := by
  intro pre
  induction pre with
  | nil =>
    intro rest c b _ hc
    rw [List.nil_append]
    have hstep : attemptStep maxB (.response 200 c) = .done (.oversize c) none false := by
      rw [attemptStep_response, if_pos ⟨rfl, by omega⟩, if_pos hc]
    rw [fetchLoop_done hstep]
    rfl
  | cons a pre ih =>
    intro rest c b hpre hc
    rw [List.cons_append,
      fetchLoop_raised_cons (retry_step maxB (hpre a (by simp))) (by simp),
      ih rest c (2 * b) (fun x hx => hpre x (List.mem_cons_of_mem _ hx)) hc]
    rfl

theorem fetchLoop_not_cacheHit (maxB : Nat) :
    ∀ (l : List Attempt) (b : Nat), (fetchLoop maxB l b).outcome ≠ .cacheHit := by
  intro l
  induction l with
  | nil => intro b; simp [fetchLoop]
  | cons a rest ih =>
    intro b
    rcases attemptStep_cases maxB a with h | ⟨c, h⟩ | ⟨c, h⟩ | ⟨s, c, h⟩
    · cases rest with
      | nil => rw [fetchLoop_raised_nil h]; simp
      | cons r1 rs => rw [fetchLoop_raised_cons h (by simp)]; exact ih (2 * b)
    all_goals rw [fetchLoop_done h]; simp

/-! ## Lemmas: `fetchOne` and `applyTask` -/

theorem fetchOne_cached {n : Nat} (maxB : Nat) (env : Nat → Attempt) (h : 0 < n) :
    fetchOne true n maxB env = ⟨.cacheHit, 0, [], none, true⟩ := by
  unfold fetchOne
  rw [if_pos (by simp [h])]

theorem fetchOne_zero_size (maxB : Nat) (env : Nat → Attempt) :
    fetchOne true 0 maxB env = fetchOne false 0 maxB env := rfl

theorem fetchOne_uncached (destSize maxB : Nat) (env : Nat → Attempt) :
    fetchOne false destSize maxB env = fetchLoop maxB ((List.range 4).map env) 1 := rfl

theorem fetchOne_attached_iff (destExists : Bool) (destSize maxB : Nat)
    (env : Nat → Attempt) :
    ((fetchOne destExists destSize maxB env).attached = true ↔
      (fetchOne destExists destSize maxB env).outcome = .cacheHit ∨
        ∃ n, (fetchOne destExists destSize maxB env).outcome = .written n) := by
  unfold fetchOne
  by_cases h : destExists && decide (0 < destSize)
  · rw [if_pos h]; simp
  · rw [if_neg h]
    constructor
    · intro ha
      exact Or.inr ((fetchLoop_attached_iff maxB _ 1).mp ha)
    · intro ho
      rcases ho with ho | ho
      · exact absurd ho (fetchLoop_not_cacheHit maxB _ 1)
      · exact (fetchLoop_attached_iff maxB _ 1).mpr ho

theorem applyTask_eq (maxB : Nat) (env : Nat → Attempt) (st : MediaState) (t : Task) :
    applyTask maxB env st t =
      (⟨if (fetchOne (fsSize st.fs t.dest).isSome ((fsSize st.fs t.dest).getD 0) maxB
            env).attached
          then appendMediaFile st.rows t.rowIdx (fileUri t.dest) else st.rows,
        match (fetchOne (fsSize st.fs t.dest).isSome ((fsSize st.fs t.dest).getD 0) maxB
            env).written with
        | some n => writeFs st.fs t.dest n
        | none => st.fs⟩,
       fetchOne (fsSize st.fs t.dest).isSome ((fsSize st.fs t.dest).getD 0) maxB env) := rfl

/-! ## Lemmas: the font bootstrap -/

theorem fontLoop_one (a : Attempt) :
    fontLoop [a] = match fontStep a with | some b => b | none => false := rfl

theorem fontLoop_two (a r1 : Attempt) (rs : List Attempt) :
    fontLoop (a :: r1 :: rs) =
      match fontStep a with | some b => b | none => fontLoop (r1 :: rs) := rfl

theorem fontStep_response (s c : Nat) :
    fontStep (.response s c) =
      if s = 200 ∧ 0 < c then some true
      else if transientStatus s then none
      else some false := rfl

theorem fontStep_some_true {a : Attempt} (h : fontStep a = some true) :
    fontSuccess a = true := by
  cases a with
  | transportError => exact absurd h (by simp [fontStep])
  | response s c =>
    rw [fontStep_response] at h
    by_cases h1 : s = 200 ∧ 0 < c
    · simp [fontSuccess, h1.1, h1.2]
    · rw [if_neg h1] at h
      by_cases h2 : transientStatus s = true
      · rw [if_pos h2] at h
        exact absurd h (by simp)
      · simp only [Bool.not_eq_true] at h2
        rw [if_neg (by simp [h2])] at h
        exact absurd (Option.some.inj h) (by simp)

theorem fontLoop_true : ∀ {l : List Attempt}, fontLoop l = true →
    ∃ a ∈ l, fontSuccess a = true := by
  intro l
  induction l with
  | nil => intro h; simp [fontLoop] at h
  | cons a rest ih =>
    intro h
    cases rest with
    | nil =>
      rw [fontLoop_one] at h
      cases hs : fontStep a with
      | some b =>
        rw [hs] at h
        exact ⟨a, by simp, fontStep_some_true (h ▸ hs)⟩
      | none => rw [hs] at h; exact absurd h (by simp)
    | cons r1 rs =>
      rw [fontLoop_two] at h
      cases hs : fontStep a with
      | some b =>
        rw [hs] at h
        exact ⟨a, by simp, fontStep_some_true (h ▸ hs)⟩
      | none =>
        rw [hs] at h
        obtain ⟨x, hx, hsucc⟩ := ih h
        exact ⟨x, List.mem_cons_of_mem _ hx, hsucc⟩

theorem downloadMissing_ok {env : String → Nat → Attempt} :
    ∀ {specs : List FontSpec}, downloadMissing env specs = .ok () →
      ∀ s ∈ specs, fontLoop ((List.range 4).map (env s.filename)) = true := by
  intro specs
  induction specs with
  | nil => intro _ s hs; simp at hs
  | cons x xs ih =>
    intro h s hs
    rw [downloadMissing] at h
    by_cases hx : fontLoop ((List.range 4).map (env x.filename)) = true
    · rw [if_pos hx] at h
      rcases List.mem_cons.mp hs with rfl | hs
      · exact hx
      · exact ih h s hs
    · rw [if_neg hx] at h
      exact absurd h (by simp)

/-! ## Claims -/

/-- C1: Cache short-circuit — a task whose destination exists with size > 0
at dispatch time issues no network request and is reported as a success (the
destination URI is appended to the owning record); a destination of size 0
is treated as absent (the probe behaves as if no file existed) and the task
is fetched (at least one request is issued). -/
theorem cache_short_circuit :
    (∀ (maxB : Nat) (env : Nat → Attempt) (st : MediaState) (t : Task) (n : Nat),
      fsSize st.fs t.dest = some n → 0 < n →
      applyTask maxB env st t =
        (⟨appendMediaFile st.rows t.rowIdx (fileUri t.dest), st.fs⟩,
         ⟨.cacheHit, 0, [], none, true⟩)) ∧
    (∀ (maxB : Nat) (env : Nat → Attempt),
      fetchOne true 0 maxB env = fetchOne false 0 maxB env ∧
      1 ≤ (fetchOne false 0 maxB env).calls) := by
  constructor
  · intro maxB env st t n hsz hn
    rw [applyTask_eq, hsz]
    simp only [Option.isSome_some, Option.getD_some, fetchOne_cached maxB env hn,
      if_true]
  · intro maxB env
    refine ⟨fetchOne_zero_size maxB env, ?_⟩
    rw [fetchOne_uncached]
    have hl : (List.range 4).map env = env 0 :: [env 1, env 2, env 3] := rfl
    rw [hl]
    exact fetchLoop_calls_pos maxB _ _ 1

theorem cache_short_circuit_witness :
    fsSize [("cache/t_00.jpg", 7)] "cache/t_00.jpg" = some 7 ∧ (0 : Nat) < 7 ∧
    applyTask 10 (fun _ => .transportError) ⟨[⟨"t", [], []⟩], [("cache/t_00.jpg", 7)]⟩
        ⟨0, "t", 0, ⟨true, some "pbs.twimg.com", "/a.jpg"⟩, "cache/t_00.jpg"⟩ =
      (⟨appendMediaFile [⟨"t", [], []⟩] 0 (fileUri "cache/t_00.jpg"),
          [("cache/t_00.jpg", 7)]⟩,
       ⟨.cacheHit, 0, [], none, true⟩) :=
  ⟨by decide, by decide,
   cache_short_circuit.1 10 (fun _ => .transportError) ⟨[⟨"t", [], []⟩],
     [("cache/t_00.jpg", 7)]⟩
     ⟨0, "t", 0, ⟨true, some "pbs.twimg.com", "/a.jpg"⟩, "cache/t_00.jpg"⟩ 7
     (by decide) (by decide)⟩

/-- C2 counterexample: the claim quantifies over every allowed-hosts list
and states that a URL from which no host can be parsed is never allowed;
but for the allowed-hosts list containing the empty string, `_allowed_host`
compares the defaulted empty host against the empty allowed host and
returns `True`. -/
theorem allowlist_counterexample : allowedHost ⟨true, none, ""⟩ [""] = true := by decide

theorem prefOf_nil_right {l : List Char} (h : l ≠ []) : prefOf l [] = false := by
  cases l with
  | nil => exact absurd rfl h
  | cons c cs => rfl

/-- C2 amended: for every allowed-hosts list of non-empty entries (the
spec's configuration surface), `_allowed_host` agrees with the claim's
characterisation, a URL with no parsable host is never allowed, and every
constructed task's reference is allowed (a disallowed reference yields no
task, hence no network call and no recorded outcome). -/
theorem allowlist_soundness_amended :
    ∀ (hosts : List String) (u : Url) (rows : List Row) (dir : String),
      (∀ h ∈ hosts, h ≠ "") →
      allowedHost u hosts = specAllowedRef u hosts ∧
      allowedHost ⟨u.parseOk, none, u.path⟩ hosts = false ∧
      (buildTasks rows hosts dir).all (fun t => allowedHost t.url hosts) = true := by
  intro hosts u rows dir hne
  have hanyf : (hosts.any fun h =>
      ([] : List Char) == lowerChars h || sufOf ('.' :: lowerChars h) []) = false := by
    rw [List.any_eq_false]
    intro h hh
    have hd : h.data ≠ [] := by
      intro hc
      exact hne h hh (by calc h = ⟨h.data⟩ := rfl
                           _ = ⟨[]⟩ := by rw [hc])
    have h1 : (([] : List Char) == lowerChars h) = false := by
      unfold lowerChars
      cases hx : h.data with
      | nil => exact absurd hx hd
      | cons c cs => rfl
    have h2 : sufOf ('.' :: lowerChars h) [] = false := by
      show prefOf ('.' :: lowerChars h).reverse ([] : List Char).reverse = false
      rw [List.reverse_nil]
      exact prefOf_nil_right (by simp)
    simp [h1, h2]
  obtain ⟨pk, hn, pa⟩ := u
  refine ⟨?_, ?_, ?_⟩
  · cases pk with
    | false => cases hn <;> rfl
    | true =>
      cases hn with
      | none =>
        show allowedHost ⟨true, none, pa⟩ hosts = false
        unfold allowedHost
        rw [if_pos rfl]
        exact hanyf
      | some host => rfl
  · cases pk with
    | false => rfl
    | true =>
      unfold allowedHost
      rw [if_pos rfl]
      exact hanyf
  · rw [List.all_eq_true]
    intro t ht
    obtain ⟨_, _, _, hall, _, _⟩ := mem_buildTasks ht
    exact hall

theorem allowlist_soundness_amended_witness :
    (∀ h ∈ ["pbs.twimg.com"], h ≠ "") ∧
    (allowedHost ⟨true, some "Sub.PBS.twimg.com", "/x"⟩ ["pbs.twimg.com"] =
        specAllowedRef ⟨true, some "Sub.PBS.twimg.com", "/x"⟩ ["pbs.twimg.com"] ∧
      allowedHost ⟨true, none, "/x"⟩ ["pbs.twimg.com"] = false ∧
      (buildTasks [⟨"t", [⟨true, some "pbs.twimg.com", "/a.jpg"⟩], []⟩] ["pbs.twimg.com"]
          "cache").all (fun t => allowedHost t.url ["pbs.twimg.com"]) = true) :=
  ⟨by decide,
   allowlist_soundness_amended ["pbs.twimg.com"] ⟨true, some "Sub.PBS.twimg.com", "/x"⟩
     [⟨"t", [⟨true, some "pbs.twimg.com", "/a.jpg"⟩], []⟩] "cache" (by decide)⟩

/-- C3: Retry bound and backoff — every task issues at most 4 requests; a
task all four of whose attempts fail transiently makes exactly 4 attempts,
sleeps 1, 2, 4 time units between them (delay 1 before attempt 2, doubling
after each retryable failure), and the delay sequence is non-decreasing. -/
theorem retry_bound_backoff :
    (∀ (destExists : Bool) (destSize maxB : Nat) (env : Nat → Attempt),
      (fetchOne destExists destSize maxB env).calls ≤ 4) ∧
    (∀ (maxB : Nat) (env : Nat → Attempt),
      (∀ k, k < 4 → attemptRetryable (env k) = true) →
      fetchOne false 0 maxB env = ⟨.exhausted, 4, [1, 2, 4], none, false⟩ ∧
      List.Chain' (fun x y => x ≤ y) (fetchOne false 0 maxB env).delays) := by
  constructor
  · intro de ds maxB env
    unfold fetchOne
    by_cases h : (de && decide (0 < ds)) = true
    · rw [if_pos h]
      exact Nat.zero_le 4
    · rw [if_neg h]
      have := fetchLoop_calls_le maxB ((List.range 4).map env) 1
      simpa using this
  · intro maxB env h
    have he := fetchLoop_all_retry maxB env h
    refine ⟨?_, ?_⟩
    · rw [fetchOne_uncached, he]
    · rw [fetchOne_uncached, he]
      exact List.chain'_cons.mpr ⟨by omega, List.chain'_cons.mpr ⟨by omega,
        List.chain'_singleton 4⟩⟩

theorem retry_bound_backoff_witness :
    (∀ k, k < 4 → attemptRetryable ((fun _ => Attempt.transportError) k) = true) ∧
    fetchOne false 0 5 (fun _ => Attempt.transportError) =
      ⟨.exhausted, 4, [1, 2, 4], none, false⟩ :=
  ⟨by decide, (retry_bound_backoff.2 5 (fun _ => Attempt.transportError) (by decide)).1⟩

/-- C4: Failure classification — an attempt with a transient status (429,
500, 502, 503, 504) or a transport-level error takes the retry path: at the
cap (no attempts left) the task ends `exhausted`, otherwise the loop sleeps
the current backoff and re-attempts; any other attempt that does not enter
the success branch ends the task immediately as a permanent failure with no
further attempts and no sleep. -/
theorem failure_classification :
    (∀ (maxB b : Nat) (a : Attempt) (rest : List Attempt), attemptRetryable a = true →
      (rest = [] → fetchLoop maxB (a :: rest) b = ⟨.exhausted, 1, [], none, false⟩) ∧
      (rest ≠ [] → fetchLoop maxB (a :: rest) b =
        ⟨(fetchLoop maxB rest (2 * b)).outcome, (fetchLoop maxB rest (2 * b)).calls + 1,
          b :: (fetchLoop maxB rest (2 * b)).delays, (fetchLoop maxB rest (2 * b)).written,
          (fetchLoop maxB rest (2 * b)).attached⟩)) ∧
    (∀ (maxB b s c : Nat) (rest : List Attempt), transientStatus s = false →
      ¬(s = 200 ∧ 0 < c) →
      fetchLoop maxB (.response s c :: rest) b = ⟨.permanent s c, 1, [], none, false⟩) := by
  constructor
  · intro maxB b a rest h
    constructor
    · intro hr; subst hr; exact fetchLoop_raised_nil (retry_step maxB h)
    · intro hr; exact fetchLoop_raised_cons (retry_step maxB h) hr
  · intro maxB b s c rest hs hn
    have hstep : attemptStep maxB (.response s c) = .done (.permanent s c) none false := by
      rw [attemptStep_response, if_neg hn, hs]
      simp
    exact fetchLoop_done hstep

theorem failure_classification_witness :
    attemptRetryable (.response 503 1) = true ∧ transientStatus 404 = false ∧
    ¬((404 : Nat) = 200 ∧ (0 : Nat) < 3) ∧
    fetchLoop 10 [.response 503 1] 1 = ⟨.exhausted, 1, [], none, false⟩ ∧
    fetchLoop 10 [.response 404 3, .transportError] 1 =
      ⟨.permanent 404 3, 1, [], none, false⟩ :=
  ⟨by decide, by decide, by decide,
   (failure_classification.1 10 1 (.response 503 1) [] (by decide)).1 rfl,
   failure_classification.2 10 1 404 3 [.transportError] (by decide) (by decide)⟩

/-- C5: Oversize handling — after any run of retryable failures, an attempt
whose body exceeds `maxBytes` ends the task at that attempt with nothing
written and nothing attached (no retry: exactly those calls are made); and
whenever a task's fetch writes nothing, the filesystem is unchanged, so no
file is ever materialized at the destination. -/
theorem oversize_no_materialize :
    (∀ (maxB : Nat) (pre rest : List Attempt) (c b : Nat),
      (∀ a ∈ pre, attemptRetryable a = true) → maxB < c →
      fetchLoop maxB (pre ++ .response 200 c :: rest) b =
        ⟨.oversize c, pre.length + 1, geomDelays b pre.length, none, false⟩) ∧
    (∀ (maxB : Nat) (env : Nat → Attempt) (st : MediaState) (t : Task),
      (applyTask maxB env st t).2.written = none →
      (applyTask maxB env st t).1.fs = st.fs) := by
  constructor
  · intro maxB pre rest c b hpre hc
    exact fetchLoop_oversize maxB pre rest c b hpre hc
  · intro maxB env st t h
    rw [applyTask_eq] at h ⊢
    dsimp only at h ⊢
    rw [h]

theorem oversize_no_materialize_witness :
    (∀ a ∈ ([Attempt.transportError] : List Attempt), attemptRetryable a = true) ∧
    (5 : Nat) < 9 ∧
    fetchLoop 5 ([Attempt.transportError] ++ .response 200 9 :: []) 1 =
      ⟨.oversize 9, 2, geomDelays 1 1, none, false⟩ ∧
    (applyTask 5 (fun _ => .response 200 9) ⟨[⟨"t", [], []⟩], []⟩
        ⟨0, "t", 0, ⟨true, some "h", "/a.jpg"⟩, "cache/t_00.jpg"⟩).2.written = none ∧
    (applyTask 5 (fun _ => .response 200 9) ⟨[⟨"t", [], []⟩], []⟩
        ⟨0, "t", 0, ⟨true, some "h", "/a.jpg"⟩, "cache/t_00.jpg"⟩).1.fs = [] :=
  ⟨by decide, by decide,
   oversize_no_materialize.1 5 [Attempt.transportError] [] 9 1 (by decide) (by decide),
   by decide,
   oversize_no_materialize.2 5 (fun _ => .response 200 9) ⟨[⟨"t", [], []⟩], []⟩
     ⟨0, "t", 0, ⟨true, some "h", "/a.jpg"⟩, "cache/t_00.jpg"⟩ (by decide)⟩

/-- C6 counterexample: `_download_media` returns no aggregate report — two
runs over the same rows whose spec-mandated `skipped` counts differ (a
permanent 404 failure vs. an oversize payload, which the spec counts as
`Skipped`) produce identical results and identical final states, so no
function of the orchestrator's output yields the report's counts. -/
theorem aggregate_report_counterexample :
    downloadMedia true "cache" [⟨"t", [⟨true, some "pbs.twimg.com", "/a.jpg"⟩], []⟩]
        ["pbs.twimg.com"] 10 [] (fun _ _ => .response 404 1) =
      downloadMedia true "cache" [⟨"t", [⟨true, some "pbs.twimg.com", "/a.jpg"⟩], []⟩]
        ["pbs.twimg.com"] 10 [] (fun _ _ => .response 200 11) ∧
    specSkipped "cache" [⟨"t", [⟨true, some "pbs.twimg.com", "/a.jpg"⟩], []⟩]
        ["pbs.twimg.com"] 10 [] (fun _ _ => .response 404 1) = 0 ∧
    specSkipped "cache" [⟨"t", [⟨true, some "pbs.twimg.com", "/a.jpg"⟩], []⟩]
        ["pbs.twimg.com"] 10 [] (fun _ _ => .response 200 11) = 1 :=
  ⟨rfl, rfl, rfl⟩

/-- C6 amended: the orchestrator returns no report; a task's destination
URI is appended to the owning record exactly when the task succeeds (cache
hit or a written body), and a failed or skipped task contributes nothing to
its record. -/
theorem aggregate_attach_amended :
    ∀ (maxB : Nat) (env : Nat → Attempt) (st : MediaState) (t : Task),
      (applyTask maxB env st t).1.rows =
        (if (applyTask maxB env st t).2.attached then
          appendMediaFile st.rows t.rowIdx (fileUri t.dest) else st.rows) ∧
      ((applyTask maxB env st t).2.attached = true ↔
        (applyTask maxB env st t).2.outcome = .cacheHit ∨
          ∃ n, (applyTask maxB env st t).2.outcome = .written n) := by
  intro maxB env st t
  constructor
  · rw [applyTask_eq]
  · rw [applyTask_eq]
    exact fetchOne_attached_iff _ _ _ _

/-- C7: No per-task abort — over every task list and every sequence of
per-attempt results (transport-level exceptions included), the media phase
completes with a result; it fails fatally exactly when the destination
directory cannot be created or the concurrency parameter is invalid. -/
theorem no_per_task_abort :
    ∀ (concurrency : Int) (mkdirOk : Bool) (dir : String) (rows : List Row)
      (hosts : List String) (maxB : Nat) (fs0 : List (String × Nat))
      (envs : Nat → Nat → Attempt),
      (∃ st, mainMediaPhase concurrency mkdirOk dir rows hosts maxB fs0 envs = .ok st) ↔
        (1 ≤ concurrency ∧ mkdirOk = true) := by
  intro c mk dir rows hosts maxB fs0 envs
  unfold mainMediaPhase downloadMedia
  by_cases hc : c < 1
  · rw [if_pos hc]
    constructor
    · rintro ⟨st, h⟩
      exact absurd h (by simp)
    · rintro ⟨h1, _⟩
      omega
  · rw [if_neg hc]
    cases mk with
    | false =>
      rw [if_neg (by simp)]
      constructor
      · rintro ⟨st, h⟩
        exact absurd h (by simp)
      · rintro ⟨_, h2⟩
        exact absurd h2 (by simp)
    | true =>
      rw [if_pos rfl]
      exact ⟨fun _ => ⟨by omega, rfl⟩, fun _ => ⟨_, rfl⟩⟩

/-- C8: Bootstrap escalation — if some required font is missing and none of
its (up to four) attempts succeeds, `_ensure_fonts` aborts the whole run
with a fatal error instead of recording a partial failure. -/
theorem bootstrap_escalation :
    ∀ (fontDir : String) (specs : List FontSpec) (present : String → Bool)
      (env : String → Nat → Attempt) (s : FontSpec), s ∈ specs →
      present s.filename = false →
      (∀ k, k < 4 → fontSuccess (env s.filename k) = false) →
      ∃ e, ensureFonts fontDir specs present env = .error e := by
  intro fontDir specs present env s hs hpres hfail
  unfold ensureFonts
  cases hdm : downloadMissing env (specs.filter fun x => !present x.filename) with
  | error e => exact ⟨e, rfl⟩
  | ok u =>
    exfalso
    cases u
    have hmem : s ∈ specs.filter (fun x => !present x.filename) :=
      List.mem_filter.mpr ⟨hs, by rw [hpres]; rfl⟩
    have hl := downloadMissing_ok hdm s hmem
    obtain ⟨a, ha, hsucc⟩ := fontLoop_true hl
    obtain ⟨k, hk, rfl⟩ := List.mem_map.mp ha
    have hk4 : k < 4 := List.mem_range.mp hk
    rw [hfail k hk4] at hsucc
    exact absurd hsucc (by simp)

theorem bootstrap_escalation_witness :
    (⟨"Noto Sans", "NotoSans-Regular.ttf", "truetype", "u"⟩ : FontSpec) ∈
        [(⟨"Noto Sans", "NotoSans-Regular.ttf", "truetype", "u"⟩ : FontSpec)] ∧
    ((fun _ : String => false) "NotoSans-Regular.ttf") = false ∧
    (∀ k, k < 4 →
      fontSuccess ((fun _ _ => Attempt.response 503 1) "NotoSans-Regular.ttf" k) = false) ∧
    ∃ e, ensureFonts "fonts" [⟨"Noto Sans", "NotoSans-Regular.ttf", "truetype", "u"⟩]
        (fun _ => false) (fun _ _ => .response 503 1) = .error e :=
  ⟨by decide, rfl, by decide,
   bootstrap_escalation "fonts" [⟨"Noto Sans", "NotoSans-Regular.ttf", "truetype", "u"⟩]
     (fun _ => false) (fun _ _ => .response 503 1)
     ⟨"Noto Sans", "NotoSans-Regular.ttf", "truetype", "u"⟩
     (by decide) rfl (by decide)⟩

/-- C9 counterexample: two distinct tasks (owned by different rows that
share the sanitized tweet id `"123"`, as duplicate export rows do) are
constructed with the same destination path, refuting collision-freedom. -/
theorem dest_collision_counterexample :
    (buildTasks [⟨"123", [⟨true, some "pbs.twimg.com", "/a.jpg"⟩], []⟩,
        ⟨"123", [⟨true, some "pbs.twimg.com", "/a.jpg"⟩], []⟩]
      ["pbs.twimg.com"] "cache").length = 2 ∧
    ((buildTasks [⟨"123", [⟨true, some "pbs.twimg.com", "/a.jpg"⟩], []⟩,
        ⟨"123", [⟨true, some "pbs.twimg.com", "/a.jpg"⟩], []⟩]
      ["pbs.twimg.com"] "cache").get? 0).map Task.rowIdx ≠
      ((buildTasks [⟨"123", [⟨true, some "pbs.twimg.com", "/a.jpg"⟩], []⟩,
          ⟨"123", [⟨true, some "pbs.twimg.com", "/a.jpg"⟩], []⟩]
        ["pbs.twimg.com"] "cache").get? 1).map Task.rowIdx ∧
    ((buildTasks [⟨"123", [⟨true, some "pbs.twimg.com", "/a.jpg"⟩], []⟩,
        ⟨"123", [⟨true, some "pbs.twimg.com", "/a.jpg"⟩], []⟩]
      ["pbs.twimg.com"] "cache").get? 0).map Task.dest =
      ((buildTasks [⟨"123", [⟨true, some "pbs.twimg.com", "/a.jpg"⟩], []⟩,
          ⟨"123", [⟨true, some "pbs.twimg.com", "/a.jpg"⟩], []⟩]
        ["pbs.twimg.com"] "cache").get? 1).map Task.dest := by
  refine ⟨rfl, ?_, rfl⟩
  decide

/-- C9 amended: destinations are collision-free as long as distinct rows
carry distinct sanitized tweet ids — two tasks at distinct (row, media
index) positions whose rows' ids are pairwise distinct get distinct
destination paths. -/
theorem dest_collision_amended :
    ∀ (rows : List Row) (hosts : List String) (dir : String) (t1 t2 : Task),
      t1 ∈ buildTasks rows hosts dir → t2 ∈ buildTasks rows hosts dir →
      (∀ i j ri rj, rows.get? i = some ri → rows.get? j = some rj → i ≠ j →
        ri.tweet_id ≠ rj.tweet_id) →
      (t1.rowIdx, t1.mediaIdx) ≠ (t2.rowIdx, t2.mediaIdx) →
      t1.dest ≠ t2.dest := by
  intro rows hosts dir t1 t2 h1 h2 hids hne hdest
  obtain ⟨r1, hr1, _, _, _, hd1⟩ := mem_buildTasks h1
  obtain ⟨r2, hr2, _, _, _, hd2⟩ := mem_buildTasks h2
  rw [hd1, hd2] at hdest
  obtain ⟨hT, hI⟩ := destPath_inj hdest
  by_cases hrow : t1.rowIdx = t2.rowIdx
  · exact hne (by rw [hrow, hI])
  · exact hids t1.rowIdx t2.rowIdx r1 r2 hr1 hr2 hrow hT

theorem dest_collision_amended_witness :
    (⟨0, "a", 0, ⟨true, some "pbs.twimg.com", "/a.jpg"⟩, "cache/a_00.jpg"⟩ : Task).dest ≠
      (⟨1, "b", 0, ⟨true, some "pbs.twimg.com", "/a.jpg"⟩, "cache/b_00.jpg"⟩ : Task).dest :=
  dest_collision_amended
    [⟨"a", [⟨true, some "pbs.twimg.com", "/a.jpg"⟩], []⟩,
     ⟨"b", [⟨true, some "pbs.twimg.com", "/a.jpg"⟩], []⟩]
    ["pbs.twimg.com"] "cache"
    ⟨0, "a", 0, ⟨true, some "pbs.twimg.com", "/a.jpg"⟩, "cache/a_00.jpg"⟩
    ⟨1, "b", 0, ⟨true, some "pbs.twimg.com", "/a.jpg"⟩, "cache/b_00.jpg"⟩
    (by decide) (by decide)
    (by
      intro i j ri rj hi hj hij
      have hi2 : i < 2 := by
        by_contra hcon
        rw [List.get?_eq_none.mpr (by simp; omega)] at hi
        exact absurd hi (by simp)
      have hj2 : j < 2 := by
        by_contra hcon
        rw [List.get?_eq_none.mpr (by simp; omega)] at hj
        exact absurd hj (by simp)
      interval_cases i <;> interval_cases j <;> simp_all <;>
        (subst hi; subst hj; decide))
    (by decide)

/-- C10: Task-source sanitization — every element of the media-URL list
extracted from a cell starts with `http://` or `https://`, and an empty
cell yields the empty list. -/
theorem media_url_sanitization :
    (∀ (cell u : String), u ∈ parseMediaUrls cell →
      (prefOf "http://".data u.data = true ∨ prefOf "https://".data u.data = true)) ∧
    parseMediaUrls "" = [] := by
  constructor
  · intro cell u hu
    unfold parseMediaUrls at hu
    by_cases hemp : cell.data.isEmpty = true
    · rw [if_pos hemp] at hu
      exact absurd hu (by simp)
    · rw [if_neg hemp] at hu
      obtain ⟨part, hpart, he⟩ := List.mem_filterMap.mp hu
      dsimp only at he
      by_cases hs : startsHttp (pyStripChars part) = true
      · rw [if_pos hs] at he
        obtain rfl := Option.some.inj he
        exact Bool.or_eq_true _ _ |>.mp hs
      · rw [if_neg hs] at he
        exact absurd he (by simp)
  · rfl

theorem media_url_sanitization_witness :
    "https://pbs.twimg.com/a.jpg" ∈ parseMediaUrls "https://pbs.twimg.com/a.jpg; ftp://x" ∧
    (prefOf "http://".data "https://pbs.twimg.com/a.jpg".data = true ∨
      prefOf "https://".data "https://pbs.twimg.com/a.jpg".data = true) :=
  ⟨by decide,
   media_url_sanitization.1 "https://pbs.twimg.com/a.jpg; ftp://x"
     "https://pbs.twimg.com/a.jpg" (by decide)⟩

end TweetPdf
